import Mathlib

/-!
Verification of the user-management frontend core: the sortable listing
engine of `UserTable` (sort comparator, stable sort, header toggling, sort
icons) and the session/token lifecycle (localStorage keys `authToken` and
`user`, the axios 401 response interceptor, login/logout flows).

JavaScript semantics used by the embedding:
* `Array.prototype.sort` with a comparator is required (ES2019) to be a
  stable sort; it is modelled by `List.insertionSort` with the relation
  `comparator a b ≤ 0`, which is the stable sort by that comparator.
* `new Date(v)` is modelled by `jsDate`: ISO `YYYY-MM-DD` and
  `YYYY-MM-DDTHH:MM:SS[.fff][Z|±HH:MM]` strings are parsed to a timestamp
  in seconds since the Unix epoch (an offset-less date-time is taken as
  UTC, i.e. we model an environment whose local zone is UTC; fractional
  seconds are ignored); `new Date(null)` is the epoch; `new Date(undefined)`
  and unparsable strings are invalid dates (`none`, i.e. NaN), whose
  `<`/`>` comparisons are always false.
* `localStorage` is modelled as an association list of string keys/values.
-/

namespace Skye

/-- Sort direction, the `'asc' | 'desc'` strings of `UserTable`. -/
inductive Direction where
  | asc
  | desc
deriving DecidableEq

/-- The sortable fields of a user record (`'name' | 'email' | 'created_at'`). -/
inductive Field where
  | name
  | email
  | created_at
deriving DecidableEq

/-- The `sortField`/`sortDirection` pair held in `UserTable`'s state. -/
structure SortState where
  field : Field
  direction : Direction
deriving DecidableEq

/-- A JavaScript value stored in a record's `created_at` property:
a string, `null`, or missing/`undefined`. -/
inductive DateVal where
  | str (s : String)
  | null
  | undef
deriving DecidableEq

/-- A user record as rendered by `UserTable` (`id`, `name`, `email`,
`created_at`); `name` and `email` are required strings per the component's
PropTypes, `created_at` may additionally be `null` or missing. -/
structure User where
  id : Nat
  name : String
  email : String
  created_at : DateVal
deriving DecidableEq

/-! ### Model of `new Date(v).getTime()` for ISO date strings -/

/-- Numeric value of a decimal digit character. -/
def digitVal (c : Char) : Option Nat :=
  if c.isDigit then some (c.toNat - 48) else none

/-- Read exactly two decimal digits. -/
def read2 : List Char → Option (Nat × List Char)
  | c1 :: c2 :: cs => do
    let d1 ← digitVal c1
    let d2 ← digitVal c2
    pure (d1 * 10 + d2, cs)
  | _ => none

/-- Read exactly four decimal digits. -/
def read4 : List Char → Option (Nat × List Char)
  | c1 :: c2 :: c3 :: c4 :: cs => do
    let d1 ← digitVal c1
    let d2 ← digitVal c2
    let d3 ← digitVal c3
    let d4 ← digitVal c4
    pure (((d1 * 10 + d2) * 10 + d3) * 10 + d4, cs)
  | _ => none

/-- Consume one expected character. -/
def expectChar (c : Char) : List Char → Option (List Char)
  | d :: cs => if d = c then some cs else none
  | [] => none

/-- Drop a fractional-seconds part (`.` followed by digits), if present. -/
def skipFrac : List Char → List Char
  | '.' :: cs => cs.dropWhile Char.isDigit
  | cs => cs

/-- Gregorian leap year. -/
def isLeapYear (y : Nat) : Bool :=
  (y % 4 == 0 && y % 100 != 0) || y % 400 == 0

/-- Days in a month (1–12). -/
def daysInMonth (y m : Nat) : Nat :=
  match m with
  | 2 => if isLeapYear y then 29 else 28
  | 4 => 30
  | 6 => 30
  | 9 => 30
  | 11 => 30
  | _ => 31

/-- Days in the year before the first day of month `m` (1–12). -/
def monthOffset (m : Nat) (leap : Bool) : Nat :=
  (match m with
   | 1 => 0
   | 2 => 31
   | 3 => 59
   | 4 => 90
   | 5 => 120
   | 6 => 151
   | 7 => 181
   | 8 => 212
   | 9 => 243
   | 10 => 273
   | 11 => 304
   | _ => 334)
  + (if leap && decide (2 < m) then 1 else 0)

/-- Days in the proleptic Gregorian calendar strictly before year `y`. -/
def daysBeforeYear (y : Nat) : Nat :=
  365 * y + (y - 1) / 4 - (y - 1) / 100 + (y - 1) / 400

/-- Day count of civil date `y-m-d` relative to 1970-01-01. -/
def dayNumber (y m d : Nat) : Int :=
  Int.ofNat (daysBeforeYear y + monthOffset m (isLeapYear y) + (d - 1)) - 719527

/-- Parse a trailing UTC-offset designator: nothing or `Z` mean UTC,
`±HH:MM` is a signed offset in seconds. -/
def parseOffsetSec : List Char → Option Int
  | [] => some 0
  | ['Z'] => some 0
  | c :: cs =>
    if c = '+' ∨ c = '-' then do
      let (h, cs1) ← read2 cs
      let cs2 ← expectChar ':' cs1
      let (mi, cs3) ← read2 cs2
      if cs3 = [] ∧ h ≤ 23 ∧ mi ≤ 59 then
        let v : Int := Int.ofNat (h * 3600 + mi * 60)
        pure (if c = '+' then v else -v)
      else none
    else none

/-- Parse an ISO 8601 date or date-time string to seconds since the epoch. -/
def parseDate (s : String) : Option Int := do
  let (y, cs0) ← read4 s.data
  let cs1 ← expectChar '-' cs0
  let (mo, cs2) ← read2 cs1
  let cs3 ← expectChar '-' cs2
  let (d, cs4) ← read2 cs3
  if 1 ≤ mo ∧ mo ≤ 12 ∧ 1 ≤ d ∧ d ≤ daysInMonth y mo then
    match cs4 with
    | [] => pure (dayNumber y mo d * 86400)
    | 'T' :: cs5 => do
      let (h, cs6) ← read2 cs5
      let cs7 ← expectChar ':' cs6
      let (mi, cs8) ← read2 cs7
      let cs9 ← expectChar ':' cs8
      let (sec, cs10) ← read2 cs9
      let off ← parseOffsetSec (skipFrac cs10)
      if h ≤ 23 ∧ mi ≤ 59 ∧ sec ≤ 59 then
        pure (dayNumber y mo d * 86400 + Int.ofNat (h * 3600 + mi * 60 + sec) - off)
      else none
    | _ => none
  else none

/-- `new Date(v).getTime()` (in seconds): strings are parsed, `null` is the
epoch, `undefined` is an invalid date; `none` stands for NaN. -/
def jsDate : DateVal → Option Int
  | .str s => parseDate s
  | .null => some 0
  | .undef => none

/-! ### The `sortedUsers` comparator (`UserTable`, part_004 lines 58–88) -/

/-- A string as the list of its character code points, the units
JavaScript `<` compares. -/
def strCodes (s : String) : List Nat :=
  s.data.map Char.toNat

/-- `toLowerCase` of a single code point (ASCII letters; the examples in
the claims are ASCII). -/
def lowerCode (c : Nat) : Nat :=
  if 65 ≤ c ∧ c ≤ 90 then c + 32 else c

/-- `s.toLowerCase()` as a list of code points. -/
def toLowerCodes (s : String) : List Nat :=
  (strCodes s).map lowerCode

/-- The comparator's working value after the `created_at → new Date` and
string `toLowerCase` preprocessing steps. -/
inductive JSOrdVal where
  | str (cs : List Nat)
  | date (t : Option Int)
deriving DecidableEq

/-- The preprocessed sort key of record `u` for field `f`: `created_at`
values become dates, string fields are lowercased (case-insensitive). -/
def sortKey (f : Field) (u : User) : JSOrdVal :=
  match f with
  | .name => .str (toLowerCodes u.name)
  | .email => .str (toLowerCodes u.email)
  | .created_at => .date (jsDate u.created_at)

/-- Lexicographic `<` on code-point lists, modelling JavaScript `<` on
strings (code-unit comparison). -/
def lexLt : List Nat → List Nat → Bool
  | [], [] => false
  | [], _ :: _ => true
  | _ :: _, [] => false
  | a :: as, b :: bs =>
    if a < b then true
    else if b < a then false
    else lexLt as bs

/-- JavaScript `<` on the preprocessed values: string comparison is
lexicographic, date comparison is by instant, and any comparison against
an invalid date (NaN) is false. -/
def jsLt : JSOrdVal → JSOrdVal → Bool
  | .str a, .str b => lexLt a b
  | .date (some x), .date (some y) => decide (x < y)
  | _, _ => false

/-- The comparator passed to `sort` in `sortedUsers`: `-1`/`1` with the
sign decided by the direction, `0` when neither value is smaller. -/
def compareUsers (f : Field) (d : Direction) (a b : User) : Int :=
  let aValue := sortKey f a
  let bValue := sortKey f b
  if jsLt aValue bValue then (if d = Direction.asc then -1 else 1)
  else if jsLt bValue aValue then (if d = Direction.asc then 1 else -1)
  else 0

/-- The "may come first" relation induced by the comparator. -/
def userLE (f : Field) (d : Direction) (a b : User) : Prop :=
  compareUsers f d a b ≤ 0

instance (f : Field) (d : Direction) : DecidableRel (userLE f d) :=
  fun a b => inferInstanceAs (Decidable (compareUsers f d a b ≤ 0))

/-- `sortedUsers` (part_004 lines 58–88): empty input yields `[]`,
otherwise a copy of the input is sorted with the comparator.
`[...users].sort(cmp)` is a stable sort (ES2019), modelled as
`insertionSort` by the relation `cmp a b ≤ 0`. -/
def sortedUsers (users : List User) (sortField : Field) (sortDirection : Direction) : List User :=
  if users.length = 0 then []
  else users.insertionSort (userLE sortField sortDirection)

/-! ### Header clicks and sort icons (part_004 lines 97–151, 254–288) -/

/-- `handleSort` (part_004 lines 97–106): clicking the active column flips
the direction, clicking a different column selects it and resets to
ascending. -/
def handleSort (s : SortState) (f : Field) : SortState :=
  if s.field = f then
    { s with direction := if s.direction = Direction.asc then Direction.desc else Direction.asc }
  else
    { field := f, direction := Direction.asc }

/-- Initial state: `useState('name')`, `useState('asc')` (lines 46, 49). -/
def initialSortState : SortState := ⟨Field.name, Direction.asc⟩

/-- The three column headers of the rendered table. -/
inductive HeaderClick where
  | nameHeader
  | emailHeader
  | dateHeader
deriving DecidableEq

/-- Header click wiring (lines 254–288): the name header calls
`handleSort('name')`, the created-at header calls
`handleSort('created_at')`, and the email header has no `onClick`, so a
click on it leaves the state unchanged. -/
def clickHeader (s : SortState) : HeaderClick → SortState
  | .nameHeader => handleSort s Field.name
  | .emailHeader => s
  | .dateHeader => handleSort s Field.created_at

/-- The sort state reached from the initial state by a sequence of header
clicks. -/
def applyClicks (cs : List HeaderClick) : SortState :=
  cs.foldl clickHeader initialSortState

/-- What `getSortIcon` renders: a neutral muted chevron, or the active
ascending/descending chevron. -/
inductive SortIconState where
  | neutral
  | activeAsc
  | activeDesc
deriving DecidableEq

/-- `getSortIcon` (lines 129–151): non-active columns get the neutral
icon; the active column shows its direction. -/
def getSortIcon (sortField : Field) (sortDirection : Direction) (f : Field) : SortIconState :=
  if sortField ≠ f then SortIconState.neutral
  else if sortDirection = Direction.asc then SortIconState.activeAsc
  else SortIconState.activeDesc

/-! ### localStorage, session lifecycle and the 401 interceptor -/

/-- `localStorage`, modelled as an association list of key/value pairs. -/
abbrev Store := List (String × String)

/-- `localStorage.getItem(key)`. -/
def getItem : Store → String → Option String
  | [], _ => none
  | (k, v) :: st, key => if k = key then some v else getItem st key

/-- `localStorage.removeItem(key)`. -/
def removeItem : Store → String → Store
  | [], _ => []
  | (k, v) :: st, key => if k = key then removeItem st key else (k, v) :: removeItem st key

/-- `localStorage.setItem(key, v)`. -/
def setItem (st : Store) (key v : String) : Store :=
  (key, v) :: removeItem st key

/-- The parts of browser state the claims are about: the local store and
the current location (both `navigate(...)` and `window.location.href`
assignments are modelled as setting `href`). -/
structure AppState where
  storage : Store
  href : String
deriving DecidableEq

/-- The success path of `LoginPage.handleLogin` (lines 19–24): store the
token under `authToken` and the serialized user under `user`. -/
def handleLoginSuccess (st : Store) (token userJson : String) : Store :=
  setItem (setItem st "authToken" token) "user" userJson

/-- Removal of the credential, as performed by the interceptor and by
`handleLogout`: `removeItem('authToken')` then `removeItem('user')`. -/
def invalidateSession (st : Store) : Store :=
  removeItem (removeItem st "authToken") "user"

/-- The stored token, as read by `UsersPage`'s auth check (line 13). -/
def currentToken (st : Store) : Option String :=
  getItem st "authToken"

/-- The axios response interceptor's error handler (api.js lines 40–48):
on HTTP 401 it removes `authToken` and `user` and sets
`window.location.href = '/login'`; other errors just propagate.
`status = none` models an error without a response (network failure). -/
def onResponseError (status : Option Nat) (s : AppState) : AppState :=
  if status = some 401 then
    { storage := invalidateSession s.storage, href := "/login" }
  else s

/-- The outbound API calls of the application (api.js lines 54–110). -/
inductive ApiCall where
  | login
  | register
  | getUsers
  | logoutCall
deriving DecidableEq

/-- Every API call is made on the shared axios instance `api`, so a failed
response runs the same `onResponseError` interceptor no matter which call
(or page) produced it. -/
def apiCallError : ApiCall → Option Nat → AppState → AppState
  | .login, status, s => onResponseError status s
  | .register, status, s => onResponseError status s
  | .getUsers, status, s => onResponseError status s
  | .logoutCall, status, s => onResponseError status s

/-- Outcome of the remote `authAPI.logout()` call: success, or a failure
carrying the HTTP status of the response (if any). -/
inductive LogoutOutcome where
  | success
  | failure (status : Option Nat)
deriving DecidableEq

/-- `UsersPage.handleLogout` (lines 60–75): try the remote logout — a
failed response first runs the interceptor — then, in `finally`, always
remove `authToken` and `user` and navigate to `/login`. -/
def handleLogout (o : LogoutOutcome) (s : AppState) : AppState :=
  let s1 :=
    match o with
    | .success => s
    | .failure status => apiCallError ApiCall.logoutCall status s
  { storage := invalidateSession s1.storage, href := "/login" }

/-- Well-formedness of the sort key of `u` for field `f`: for `created_at`
the date must parse (string fields are always well formed). -/
def keyOkB (f : Field) (u : User) : Bool :=
  match f with
  | .created_at => (jsDate u.created_at).isSome
  | _ => true

/-- All records in `l` have a well-formed sort key for field `f`. -/
def keysConsistent (f : Field) (l : List User) : Prop :=
  ∀ u ∈ l, keyOkB f u = true

/-! ### Order-theoretic facts about the comparator -/

theorem lexLt_irrefl : ∀ (l : List Nat), lexLt l l = false
  | [] => rfl
  | a :: as => by
    rw [lexLt, if_neg (lt_irrefl a), if_neg (lt_irrefl a)]
    exact lexLt_irrefl as

theorem lexLt_asymm : ∀ (l1 l2 : List Nat), lexLt l1 l2 = true → lexLt l2 l1 = false
  | [], [], h => by simp [lexLt] at h
  | [], _ :: _, _ => rfl
  | _ :: _, [], h => by simp [lexLt] at h
  | a :: as, b :: bs, h => by
    rw [lexLt] at h ⊢
    by_cases hab : a < b
    · rw [if_neg (by omega : ¬ b < a), if_pos hab]
    · by_cases hba : b < a
      · rw [if_neg hab, if_pos hba] at h
        exact absurd h (by simp)
      · rw [if_neg hab, if_neg hba] at h
        rw [if_neg hba, if_neg hab]
        exact lexLt_asymm as bs h

theorem lexLt_not_trans : ∀ (l3 l2 l1 : List Nat),
    lexLt l2 l1 = false → lexLt l3 l2 = false → lexLt l3 l1 = false
  | [], l2, l1, h21, h32 => by
    cases l1 with
    | nil => rfl
    | cons x xs =>
      cases l2 with
      | nil => simp [lexLt] at h21
      | cons y ys => simp [lexLt] at h32
  | z :: zs, l2, l1, h21, h32 => by
    cases l1 with
    | nil => rfl
    | cons x xs =>
      cases l2 with
      | nil => simp [lexLt] at h21
      | cons y ys =>
        rw [lexLt] at h21 h32 ⊢
        by_cases hyx : y < x
        · rw [if_pos hyx] at h21
          exact absurd h21 (by simp)
        · by_cases hzy : z < y
          · rw [if_pos hzy] at h32
            exact absurd h32 (by simp)
          · rw [if_neg hzy] at h32
            rw [if_neg hyx] at h21
            rw [if_neg (by omega : ¬ z < x)]
            by_cases hxz : x < z
            · rw [if_pos hxz]
            · rw [if_neg hxz]
              rw [if_neg (by omega : ¬ x < y)] at h21
              rw [if_neg (by omega : ¬ y < z)] at h32
              exact lexLt_not_trans zs ys xs h21 h32

theorem jsLt_irrefl (v : JSOrdVal) : jsLt v v = false := by
  cases v with
  | str cs => exact lexLt_irrefl cs
  | date t =>
    cases t with
    | none => rfl
    | some x => simp [jsLt]

theorem jsLt_asymm : ∀ {v w : JSOrdVal}, jsLt v w = true → jsLt w v = false := by
  intro v w h
  cases v with
  | str a =>
    cases w with
    | str b => exact lexLt_asymm a b h
    | date t => cases t <;> simp [jsLt] at h
  | date t =>
    cases w with
    | str b => cases t <;> simp [jsLt] at h
    | date u =>
      cases t with
      | none => cases u <;> simp [jsLt] at h
      | some x =>
        cases u with
        | none => simp [jsLt] at h
        | some y =>
          simp [jsLt] at h ⊢
          omega

theorem jsLt_date_none_left (v : JSOrdVal) : jsLt (JSOrdVal.date none) v = false := by
  cases v with
  | str cs => rfl
  | date t => cases t <;> rfl

theorem jsLt_date_none_right (v : JSOrdVal) : jsLt v (JSOrdVal.date none) = false := by
  cases v with
  | str cs => rfl
  | date t => cases t <;> rfl

theorem compareUsers_swap (f : Field) (d : Direction) (a b : User) :
    compareUsers f d b a = -compareUsers f d a b := by
  by_cases h1 : jsLt (sortKey f a) (sortKey f b) = true
  · have h2 : jsLt (sortKey f b) (sortKey f a) = false := jsLt_asymm h1
    cases d <;> simp [compareUsers, h1, h2]
  · by_cases h2 : jsLt (sortKey f b) (sortKey f a) = true
    · cases d <;> simp [compareUsers, h1, h2]
    · cases d <;> simp [compareUsers, h1, h2]

theorem compareUsers_eq_zero (f : Field) (d : Direction) {a b : User}
    (h : sortKey f a = sortKey f b) : compareUsers f d a b = 0 := by
  simp [compareUsers, h, jsLt_irrefl]

theorem userLE_asc_iff (f : Field) (a b : User) :
    userLE f Direction.asc a b ↔ jsLt (sortKey f b) (sortKey f a) = false := by
  unfold userLE
  by_cases h1 : jsLt (sortKey f a) (sortKey f b) = true
  · have h2 : jsLt (sortKey f b) (sortKey f a) = false := jsLt_asymm h1
    simp [compareUsers, h1, h2]
  · by_cases h2 : jsLt (sortKey f b) (sortKey f a) = true <;>
      simp [compareUsers, h1, h2]

theorem userLE_desc_iff (f : Field) (a b : User) :
    userLE f Direction.desc a b ↔ jsLt (sortKey f a) (sortKey f b) = false := by
  unfold userLE
  by_cases h1 : jsLt (sortKey f a) (sortKey f b) = true
  · have h2 : jsLt (sortKey f b) (sortKey f a) = false := jsLt_asymm h1
    simp [compareUsers, h1, h2]
  · by_cases h2 : jsLt (sortKey f b) (sortKey f a) = true <;>
      simp [compareUsers, h1, h2]

theorem userLE_total (f : Field) (d : Direction) (a b : User) :
    userLE f d a b ∨ userLE f d b a := by
  unfold userLE
  rw [compareUsers_swap]
  omega

theorem jsLt_false_trans (f : Field) {a b c : User}
    (ha : keyOkB f a = true) (hb : keyOkB f b = true) (hc : keyOkB f c = true)
    (h1 : jsLt (sortKey f b) (sortKey f a) = false)
    (h2 : jsLt (sortKey f c) (sortKey f b) = false) :
    jsLt (sortKey f c) (sortKey f a) = false := by
  cases f with
  | name => exact lexLt_not_trans _ _ _ h1 h2
  | email => exact lexLt_not_trans _ _ _ h1 h2
  | created_at =>
    obtain ⟨x, hx⟩ := Option.isSome_iff_exists.mp ha
    obtain ⟨y, hy⟩ := Option.isSome_iff_exists.mp hb
    obtain ⟨z, hz⟩ := Option.isSome_iff_exists.mp hc
    simp only [sortKey, jsLt, hx, hy, hz, keyOkB] at h1 h2 ⊢
    simp only [decide_eq_false_iff_not] at h1 h2 ⊢
    omega

theorem userLE_trans (f : Field) (d : Direction) {a b c : User}
    (ha : keyOkB f a = true) (hb : keyOkB f b = true) (hc : keyOkB f c = true)
    (h1 : userLE f d a b) (h2 : userLE f d b c) : userLE f d a c := by
  cases d with
  | asc =>
    rw [userLE_asc_iff] at h1 h2 ⊢
    exact jsLt_false_trans f ha hb hc h1 h2
  | desc =>
    rw [userLE_desc_iff] at h1 h2 ⊢
    exact jsLt_false_trans f hc hb ha h2 h1

/-! ### Generic facts about the stable sort -/

theorem insertionSort_filter_stable {α : Type*} (r : α → α → Prop) [DecidableRel r]
    (l : List α) (p : α → Bool)
    (hp : ∀ a b, p a = true → p b = true → r a b) :
    (l.insertionSort r).filter p = l.filter p := by
  have hpair : (l.filter p).Pairwise r :=
    List.pairwise_of_forall_mem_list fun a hma b hmb =>
      hp a b (List.mem_filter.mp hma).2 (List.mem_filter.mp hmb).2
  have hsub : List.Sublist (l.filter p) (l.insertionSort r) :=
    List.sublist_insertionSort hpair (List.filter_sublist l)
  have hself : (l.filter p).filter p = l.filter p := by
    rw [List.filter_filter]
    simp only [Bool.and_self]
  have hsub2 : List.Sublist (l.filter p) ((l.insertionSort r).filter p) := by
    have h := hsub.filter p
    rwa [hself] at h
  have hperm : List.Perm ((l.insertionSort r).filter p) (l.filter p) :=
    (List.perm_insertionSort r l).filter p
  exact (hsub2.eq_of_length hperm.length_eq.symm).symm

theorem insertionSort_pairwise_mem {α : Type*} (r : α → α → Prop) [DecidableRel r] (l : List α)
    (htotal : ∀ a b : α, r a b ∨ r b a)
    (htrans : ∀ a ∈ l, ∀ b ∈ l, ∀ c ∈ l, r a b → r b c → r a c) :
    (l.insertionSort r).Pairwise r := by
  let q : {x // x ∈ l} → {x // x ∈ l} → Prop := fun a b => r a.1 b.1
  haveI : DecidableRel q := fun a b => inferInstanceAs (Decidable (r a.1 b.1))
  haveI : IsTotal {x // x ∈ l} q := ⟨fun a b => htotal a.1 b.1⟩
  haveI : IsTrans {x // x ∈ l} q := ⟨fun a b c => htrans a.1 a.2 b.1 b.2 c.1 c.2⟩
  have hmap : (l.attach.insertionSort q).map Subtype.val = l.insertionSort r := by
    rw [List.map_insertionSort q r Subtype.val l.attach (fun a _ b _ => Iff.rfl),
      List.attach_map_subtype_val]
  have hs : (l.attach.insertionSort q).Pairwise q := List.sorted_insertionSort q l.attach
  have hres := hs.map Subtype.val (fun a b h => h)
  rwa [hmap] at hres

/-! ### Facts about the local store -/

theorem getItem_removeItem_self (st : Store) (k : String) :
    getItem (removeItem st k) k = none := by
  induction st with
  | nil => rfl
  | cons p st ih =>
    obtain ⟨a, v⟩ := p
    show getItem (if a = k then removeItem st k else (a, v) :: removeItem st k) k = none
    by_cases h : a = k
    · rw [if_pos h]; exact ih
    · rw [if_neg h]
      show (if a = k then some v else getItem (removeItem st k) k) = none
      rw [if_neg h]; exact ih

theorem getItem_removeItem_ne (st : Store) {k1 k2 : String} (h : k1 ≠ k2) :
    getItem (removeItem st k2) k1 = getItem st k1 := by
  induction st with
  | nil => rfl
  | cons p st ih =>
    obtain ⟨a, v⟩ := p
    show getItem (if a = k2 then removeItem st k2 else (a, v) :: removeItem st k2) k1
        = if a = k1 then some v else getItem st k1
    by_cases ha : a = k2
    · rw [if_pos ha, ih, if_neg (by rw [ha]; exact fun hh => h hh.symm)]
    · rw [if_neg ha]
      show (if a = k1 then some v else getItem (removeItem st k2) k1)
          = if a = k1 then some v else getItem st k1
      rw [ih]

theorem removeItem_of_absent {st : Store} {k : String} (h : getItem st k = none) :
    removeItem st k = st := by
  induction st with
  | nil => rfl
  | cons p st ih =>
    obtain ⟨a, v⟩ := p
    have hh : (if a = k then some v else getItem st k) = none := h
    by_cases ha : a = k
    · rw [if_pos ha] at hh
      exact absurd hh (by simp)
    · rw [if_neg ha] at hh
      show (if a = k then removeItem st k else (a, v) :: removeItem st k) = (a, v) :: st
      rw [if_neg ha, ih hh]

theorem getItem_setItem_self (st : Store) (k v : String) :
    getItem (setItem st k v) k = some v := by
  simp [setItem, getItem]

theorem getItem_setItem_ne (st : Store) {k1 k2 : String} (v : String) (h : k1 ≠ k2) :
    getItem (setItem st k2 v) k1 = getItem st k1 := by
  have : k2 ≠ k1 := fun hh => h hh.symm
  simp [setItem, getItem, this, getItem_removeItem_ne st h]

theorem invalidateSession_authToken (st : Store) :
    getItem (invalidateSession st) "authToken" = none := by
  unfold invalidateSession
  rw [getItem_removeItem_ne _ (by decide), getItem_removeItem_self]

theorem invalidateSession_user (st : Store) :
    getItem (invalidateSession st) "user" = none :=
  getItem_removeItem_self _ _

/-! ### The reachable sort states -/

theorem clickHeader_field_ne_email (s : SortState) (h : s.field ≠ Field.email)
    (c : HeaderClick) : (clickHeader s c).field ≠ Field.email := by
  cases c with
  | nameHeader =>
    simp only [clickHeader, handleSort]
    split_ifs <;> simp_all
  | emailHeader => exact h
  | dateHeader =>
    simp only [clickHeader, handleSort]
    split_ifs <;> simp_all

theorem applyClicks_field_ne_email (cs : List HeaderClick) :
    (applyClicks cs).field ≠ Field.email := by
  have main : ∀ (cs : List HeaderClick) (s : SortState), s.field ≠ Field.email →
      (cs.foldl clickHeader s).field ≠ Field.email := by
    intro cs
    induction cs with
    | nil => intro s hs; exact hs
    | cons c cs ih =>
      intro s hs
      exact ih _ (clickHeader_field_ne_email s hs c)
  exact main cs initialSortState (by decide)

/-! ### The claims -/

/-- C1: invoking `handleSort` (setSortKey) with the currently active field
keeps the field and flips the direction; with a different field it makes
that field active and resets the direction to ascending; in particular
clicking name then email from the initial state yields email/ascending. -/
theorem handleSort_toggle_or_reset (s : SortState) (f : Field) :
    (s.field = f →
      (handleSort s f).field = s.field ∧
      (handleSort s f).direction =
        (if s.direction = Direction.asc then Direction.desc else Direction.asc)) ∧
    (s.field ≠ f →
      (handleSort s f).field = f ∧ (handleSort s f).direction = Direction.asc) ∧
    handleSort (handleSort initialSortState Field.name) Field.email =
      ⟨Field.email, Direction.asc⟩ := by
  refine ⟨fun h => ?_, fun h => ?_, by decide⟩ <;> simp [handleSort, h]

/-- Witness for C1 at the initial state. -/
theorem handleSort_toggle_or_reset_witness :
    (handleSort ⟨Field.name, Direction.asc⟩ Field.name).field = Field.name ∧
    (handleSort ⟨Field.name, Direction.asc⟩ Field.name).direction =
      (if Direction.asc = Direction.asc then Direction.desc else Direction.asc) :=
  (handleSort_toggle_or_reset ⟨Field.name, Direction.asc⟩ Field.name).1 rfl

/-- C2: the comparator folds name and email to lower case before comparing
(keys equal up to case tie), compares `created_at` as instants (equal
instants tie, earlier instants come first in ascending order), orders a
pair of date strings whose lexicographic and chronological orders disagree
by instant, and sorts names beta/Alpha/gamma ascending to
Alpha/beta/gamma. -/
theorem comparator_case_fold_and_instants :
    (∀ (d : Direction) (a b : User), toLowerCodes a.name = toLowerCodes b.name →
      compareUsers Field.name d a b = 0) ∧
    (∀ (d : Direction) (a b : User), toLowerCodes a.email = toLowerCodes b.email →
      compareUsers Field.email d a b = 0) ∧
    (∀ (d : Direction) (a b : User), jsDate a.created_at = jsDate b.created_at →
      compareUsers Field.created_at d a b = 0) ∧
    (∀ (a b : User) (x y : Int), jsDate a.created_at = some x → jsDate b.created_at = some y →
      x < y → compareUsers Field.created_at Direction.asc a b = -1) ∧
    (lexLt (strCodes "2024-01-01T23:00:00Z") (strCodes "2024-01-02T00:00:00+05:00") = true ∧
      (sortedUsers
        [⟨2, "y", "y@a", DateVal.str "2024-01-01T23:00:00Z"⟩,
         ⟨1, "x", "x@a", DateVal.str "2024-01-02T00:00:00+05:00"⟩]
        Field.created_at Direction.asc).map User.id = [1, 2]) ∧
    (sortedUsers
      [⟨1, "beta", "b@x", DateVal.str "2024-01-01"⟩,
       ⟨2, "Alpha", "a@x", DateVal.str "2024-01-01"⟩,
       ⟨3, "gamma", "g@x", DateVal.str "2024-01-01"⟩]
      Field.name Direction.asc).map User.name = ["Alpha", "beta", "gamma"] := by
  refine ⟨?_, ?_, ?_, ?_, by decide, by decide⟩
  · intro d a b h
    exact compareUsers_eq_zero Field.name d (by simp [sortKey, h])
  · intro d a b h
    exact compareUsers_eq_zero Field.email d (by simp [sortKey, h])
  · intro d a b h
    exact compareUsers_eq_zero Field.created_at d (by simp [sortKey, h])
  · intro a b x y hx hy hxy
    simp [compareUsers, sortKey, jsLt, hx, hy, hxy]

/-- Witness for C2: equal-up-to-case names tie, and an earlier instant
comes first. -/
theorem comparator_case_fold_and_instants_witness :
    compareUsers Field.name Direction.asc ⟨1, "ana", "a@x", DateVal.null⟩
      ⟨2, "Ana", "b@x", DateVal.null⟩ = 0 ∧
    compareUsers Field.created_at Direction.asc ⟨1, "a", "a@x", DateVal.str "2024-01-01"⟩
      ⟨2, "b", "b@x", DateVal.str "2024-01-02"⟩ = -1 :=
  ⟨comparator_case_fold_and_instants.1 Direction.asc _ _ (by decide),
   comparator_case_fold_and_instants.2.2.2.1 _ _ 1704067200 1704153600
     (by decide) (by decide) (by decide)⟩

/-- C3: the sort is stable — for any fixed sort key the records carrying
that key appear in the output in input order —, descending order is the
sign-inverted comparator, and on a fixture with a duplicate name key the
reversed ascending order differs from the descending order (ties are
preserved, not inverted). -/
theorem sort_stable_and_desc_sign :
    (∀ (l : List User) (f : Field) (d : Direction) (k : JSOrdVal),
      (sortedUsers l f d).filter (fun u => decide (sortKey f u = k)) =
        l.filter (fun u => decide (sortKey f u = k))) ∧
    (∀ (f : Field) (a b : User),
      compareUsers f Direction.desc a b = -compareUsers f Direction.asc a b) ∧
    (sortedUsers
        [⟨1, "ana", "a1@x", DateVal.str "2024-01-01"⟩,
         ⟨2, "ana", "a2@x", DateVal.str "2024-01-02"⟩,
         ⟨3, "bob", "b@x", DateVal.str "2024-01-03"⟩]
        Field.name Direction.desc).map User.id = [3, 1, 2] ∧
    (sortedUsers
        [⟨1, "ana", "a1@x", DateVal.str "2024-01-01"⟩,
         ⟨2, "ana", "a2@x", DateVal.str "2024-01-02"⟩,
         ⟨3, "bob", "b@x", DateVal.str "2024-01-03"⟩]
        Field.name Direction.asc).reverse ≠
      sortedUsers
        [⟨1, "ana", "a1@x", DateVal.str "2024-01-01"⟩,
         ⟨2, "ana", "a2@x", DateVal.str "2024-01-02"⟩,
         ⟨3, "bob", "b@x", DateVal.str "2024-01-03"⟩]
        Field.name Direction.desc := by
  refine ⟨?_, ?_, by decide, by decide⟩
  · intro l f d k
    by_cases hl : l.length = 0
    · rw [List.length_eq_zero] at hl
      subst hl
      rfl
    · unfold sortedUsers
      rw [if_neg hl]
      refine insertionSort_filter_stable _ _ _ (fun a b hpa hpb => ?_)
      have h1 : sortKey f a = k := of_decide_eq_true hpa
      have h2 : sortKey f b = k := of_decide_eq_true hpb
      show compareUsers f d a b ≤ 0
      rw [compareUsers_eq_zero f d (h1.trans h2.symm)]
  · intro f a b
    by_cases h1 : jsLt (sortKey f a) (sortKey f b) = true
    · have h2 : jsLt (sortKey f b) (sortKey f a) = false := jsLt_asymm h1
      simp [compareUsers, h1, h2]
    · by_cases h2 : jsLt (sortKey f b) (sortKey f a) = true <;>
        simp [compareUsers, h1, h2]

/-- C4: a 401 status on the response to any outbound API call removes both
stored credential keys and navigates to the login entry point, from any
prior application state. -/
theorem api_401_clears_session (c : ApiCall) (status : Option Nat) (s : AppState)
    (h : status = some 401) :
    getItem (apiCallError c status s).storage "authToken" = none ∧
    getItem (apiCallError c status s).storage "user" = none ∧
    (apiCallError c status s).href = "/login" := by
  subst h
  cases c <;>
    exact ⟨invalidateSession_authToken _, invalidateSession_user _, rfl⟩

/-- Witness for C4: a 401 on the users fetch from the users page. -/
theorem api_401_clears_session_witness :
    getItem (apiCallError ApiCall.getUsers (some 401)
        ⟨[("authToken", "t"), ("user", "u")], "/users"⟩).storage "authToken" = none ∧
    getItem (apiCallError ApiCall.getUsers (some 401)
        ⟨[("authToken", "t"), ("user", "u")], "/users"⟩).storage "user" = none ∧
    (apiCallError ApiCall.getUsers (some 401)
        ⟨[("authToken", "t"), ("user", "u")], "/users"⟩).href = "/login" :=
  api_401_clears_session ApiCall.getUsers (some 401)
    ⟨[("authToken", "t"), ("user", "u")], "/users"⟩ rfl

/-- C5 counterexample: from the state {created_at, ascending}, invoking
`handleSort` with name twice leaves the direction descending, not the
original ascending — the double invocation is not an involution on the
direction for every starting state. -/
theorem double_click_not_involution :
    ¬ ((handleSort (handleSort ⟨Field.created_at, Direction.asc⟩ Field.name)
          Field.name).direction =
        (⟨Field.created_at, Direction.asc⟩ : SortState).direction) := by
  decide

/-- C5 (amended): invoking `handleSort` twice with `f` returns the
direction to its original value when `f` was already the active field;
when the starting field differs from `f` the resulting direction is
always descending. -/
theorem double_click_direction (s : SortState) (f : Field) :
    (s.field = f → (handleSort (handleSort s f) f).direction = s.direction) ∧
    (s.field ≠ f → (handleSort (handleSort s f) f).direction = Direction.desc) := by
  obtain ⟨sf, sd⟩ := s
  constructor <;> intro h
  · cases h
    cases sf <;> cases sd <;> decide
  · cases sf <;> cases f <;> cases sd <;>
      first
        | exact absurd rfl h
        | decide

/-- Witness for C5 (amended). -/
theorem double_click_direction_witness :
    (handleSort (handleSort ⟨Field.name, Direction.desc⟩ Field.name) Field.name).direction
      = Direction.desc ∧
    (handleSort (handleSort ⟨Field.name, Direction.desc⟩ Field.email) Field.email).direction
      = Direction.desc :=
  ⟨(double_click_direction ⟨Field.name, Direction.desc⟩ Field.name).1 rfl,
   (double_click_direction ⟨Field.name, Direction.desc⟩ Field.email).2 (by decide)⟩

/-- C6: `sortedUsers` is idempotent — a list already ordered by the active
comparator is returned unchanged, and (when the active keys are well
formed, as every record with a parsable timestamp is) re-sorting the
output with the same state yields the identical sequence. -/
theorem sort_idempotent (l : List User) (f : Field) (d : Direction) :
    (List.Pairwise (userLE f d) l → sortedUsers l f d = l) ∧
    (keysConsistent f l → sortedUsers (sortedUsers l f d) f d = sortedUsers l f d) := by
  constructor
  · intro hp
    by_cases hl : l.length = 0
    · rw [List.length_eq_zero] at hl
      subst hl
      rfl
    · unfold sortedUsers
      rw [if_neg hl]
      exact List.Sorted.insertionSort_eq hp
  · intro hk
    by_cases hl : l.length = 0
    · rw [List.length_eq_zero] at hl
      subst hl
      rfl
    · have hson : sortedUsers l f d = l.insertionSort (userLE f d) := by
        unfold sortedUsers
        rw [if_neg hl]
      rw [hson]
      unfold sortedUsers
      rw [if_neg (by rw [List.length_insertionSort]; exact hl)]
      apply List.Sorted.insertionSort_eq
      refine insertionSort_pairwise_mem (userLE f d) l (userLE_total f d) ?_
      intro a hma b hmb c hmc hab hbc
      exact userLE_trans f d (hk a hma) (hk b hmb) (hk c hmc) hab hbc

/-- Witness for C6 on a concrete sorted two-record list. -/
theorem sort_idempotent_witness :
    sortedUsers
        [⟨1, "ana", "a@x", DateVal.str "2024-01-01"⟩,
         ⟨2, "bob", "b@x", DateVal.str "2024-01-02"⟩] Field.name Direction.asc =
      [⟨1, "ana", "a@x", DateVal.str "2024-01-01"⟩,
       ⟨2, "bob", "b@x", DateVal.str "2024-01-02"⟩] ∧
    sortedUsers
        (sortedUsers
          [⟨1, "ana", "a@x", DateVal.str "2024-01-01"⟩,
           ⟨2, "bob", "b@x", DateVal.str "2024-01-02"⟩] Field.created_at Direction.desc)
        Field.created_at Direction.desc =
      sortedUsers
        [⟨1, "ana", "a@x", DateVal.str "2024-01-01"⟩,
         ⟨2, "bob", "b@x", DateVal.str "2024-01-02"⟩] Field.created_at Direction.desc :=
  ⟨(sort_idempotent _ Field.name Direction.asc).1 (by decide),
   (sort_idempotent _ Field.created_at Direction.desc).2
     (by unfold keysConsistent; decide)⟩

/-- C7: the credential round-trips — after the login success path the
stored token and user are exactly those established, after invalidation
both reads are absent (from any state), and invalidating a store that
holds no credential keys is the identity (a no-op, not an error). -/
theorem session_roundtrip (st : Store) (token userJson : String) :
    currentToken (handleLoginSuccess st token userJson) = some token ∧
    getItem (handleLoginSuccess st token userJson) "user" = some userJson ∧
    currentToken (invalidateSession (handleLoginSuccess st token userJson)) = none ∧
    getItem (invalidateSession (handleLoginSuccess st token userJson)) "user" = none ∧
    (getItem st "authToken" = none → getItem st "user" = none →
      invalidateSession st = st) := by
  refine ⟨?_, ?_, invalidateSession_authToken _, invalidateSession_user _, ?_⟩
  · unfold currentToken handleLoginSuccess
    rw [getItem_setItem_ne _ _ (by decide), getItem_setItem_self]
  · unfold handleLoginSuccess
    rw [getItem_setItem_self]
  · intro h1 h2
    unfold invalidateSession
    rw [removeItem_of_absent h1, removeItem_of_absent h2]

/-- Witness for C7 on a store that carries only the theme key. -/
theorem session_roundtrip_witness :
    currentToken (handleLoginSuccess [("catware-theme", "dark")] "tok" "uj") = some "tok" ∧
    invalidateSession [("catware-theme", "dark")] = [("catware-theme", "dark")] :=
  ⟨(session_roundtrip [("catware-theme", "dark")] "tok" "uj").1,
   (session_roundtrip [("catware-theme", "dark")] "tok" "uj").2.2.2.2
     (by decide) (by decide)⟩

/-- C8 counterexample: with records [A, B] where B's `created_at` is
missing, ascending sort by `created_at` leaves B last — it is not placed
as if its value were the lowest possible (which would put it first). -/
theorem missing_key_not_lowest :
    sortedUsers
        [⟨1, "a", "a@x", DateVal.str "2024-01-02"⟩, ⟨2, "b", "b@x", DateVal.undef⟩]
        Field.created_at Direction.asc =
      [⟨1, "a", "a@x", DateVal.str "2024-01-02"⟩, ⟨2, "b", "b@x", DateVal.undef⟩] ∧
    jsDate (DateVal.undef) = none ∧
    (sortedUsers
        [⟨1, "a", "a@x", DateVal.str "2024-01-02"⟩, ⟨2, "b", "b@x", DateVal.undef⟩]
        Field.created_at Direction.asc).head? ≠
      some ⟨2, "b", "b@x", DateVal.undef⟩ := by
  refine ⟨by decide, rfl, by decide⟩

/-- C8 (amended): a record with a missing `created_at` has an invalid
instant (NaN) and the comparator returns 0 against every record in both
argument orders, so the stable sort leaves such records in their relative
input positions; a null `created_at` is the epoch instant 0, not a lowest
possible value. -/
theorem missing_key_ties (d : Direction) (a b : User)
    (h : jsDate a.created_at = none) :
    compareUsers Field.created_at d a b = 0 ∧
    compareUsers Field.created_at d b a = 0 ∧
    jsDate DateVal.null = some 0 := by
  refine ⟨?_, ?_, rfl⟩ <;>
    simp [compareUsers, sortKey, h, jsLt_date_none_left, jsLt_date_none_right]

/-- Witness for C8 (amended). -/
theorem missing_key_ties_witness :
    compareUsers Field.created_at Direction.asc ⟨2, "b", "b@x", DateVal.undef⟩
        ⟨1, "a", "a@x", DateVal.str "2024-01-02"⟩ = 0 ∧
    compareUsers Field.created_at Direction.asc ⟨1, "a", "a@x", DateVal.str "2024-01-02"⟩
        ⟨2, "b", "b@x", DateVal.undef⟩ = 0 ∧
    jsDate DateVal.null = some 0 :=
  missing_key_ties Direction.asc ⟨2, "b", "b@x", DateVal.undef⟩
    ⟨1, "a", "a@x", DateVal.str "2024-01-02"⟩ rfl

/-- C9: `handleLogout` always removes both credential keys and navigates
to the login page — both when the remote logout succeeds and when it
fails with any response status or with no response at all. -/
theorem logout_always_clears (o : LogoutOutcome) (s : AppState) :
    getItem (handleLogout o s).storage "authToken" = none ∧
    getItem (handleLogout o s).storage "user" = none ∧
    (handleLogout o s).href = "/login" := by
  cases o <;>
    exact ⟨invalidateSession_authToken _, invalidateSession_user _, rfl⟩

/-- C10: only the name and created-at headers are wired to `handleSort`;
under every sequence of header clicks from the initial state the active
field is never email, and the email column's sort icon is always the
neutral one. -/
theorem email_never_active (cs : List HeaderClick) :
    (applyClicks cs).field ≠ Field.email ∧
    getSortIcon (applyClicks cs).field (applyClicks cs).direction Field.email
      = SortIconState.neutral := by
  have hf := applyClicks_field_ne_email cs
  refine ⟨hf, ?_⟩
  simp [getSortIcon, hf]

end Skye
